import Mathlib

/-!
Shallow embedding of the Leantime MCP proxy bridging engine
(`src/proxy.ts`, class `LeantimeMcpProxy`) together with proofs of the
spec's testable properties about it.

JavaScript values that can flow through the proxy are modelled by the
inductive type `Json` below (numbers as integers, which is all the code
ever produces or inspects).  JS property access, truthiness, object
spread and `Map` operations are modelled by the small helper functions
that follow; each embedded operation keeps the name of the TypeScript
method it is translated from.
-/

namespace LeantimeProxy

/-- JSON values (the result of a successful `JSON.parse`). -/
inductive Json where
  | null : Json
  | bool (b : Bool) : Json
  | num (n : Int) : Json
  | str (s : String) : Json
  | arr (items : List Json) : Json
  | obj (fields : List (String × Json)) : Json

/-- Model of `Map.get` / first binding for a key in an association list. -/
def lookupAssoc {α : Type} (l : List (String × α)) (k : String) : Option α :=
  match l with
  | [] => none
  | (k', v) :: rest => if k' = k then some v else lookupAssoc rest k

/-- JS property read `v[k]` for the property names the proxy uses:
`some` when the property is present on an object, `none` (undefined)
otherwise.  (`null.k` throws in JS; callers in the model handle that
case explicitly.) -/
def getField : Json → String → Option Json
  | Json.obj fields, k => lookupAssoc fields k
  | _, _ => none

/-- JS truthiness of a value. -/
def jsTruthy : Json → Bool
  | Json.null => false
  | Json.bool b => b
  | Json.num n => n != 0
  | Json.str s => s ≠ ""
  | Json.arr _ => true
  | Json.obj _ => true

/-- JS truthiness of a possibly-undefined value (`undefined` is falsy). -/
def jsTruthyO : Option Json → Bool
  | none => false
  | some v => jsTruthy v

/-- JS `a || b` on a possibly-undefined left operand. -/
def jsOrJ (a : Option Json) (b : Json) : Json :=
  match a with
  | some v => if jsTruthy v then v else b
  | none => b

/-- Model of `Map.set` / object-literal field override: replaces the value at an
existing key in place, otherwise appends the binding. -/
def setAssoc {α : Type} (l : List (String × α)) (k : String) (v : α) :
    List (String × α) :=
  match l with
  | [] => [(k, v)]
  | (k', v') :: rest =>
      if k' = k then (k', v) :: rest else (k', v') :: setAssoc rest k v

/-- Model of `Map.delete`: removes the binding for a key. -/
def removeAssoc {α : Type} (l : List (String × α)) (k : String) :
    List (String × α) :=
  match l with
  | [] => []
  | (k', v') :: rest =>
      if k' = k then rest else (k', v') :: removeAssoc rest k

/-- Own enumerable properties contributed by `{ ...v }` object spread:
objects contribute their fields, strings and arrays their indexed
elements, primitives nothing. -/
def jsSpreadFields : Json → List (String × Json)
  | Json.obj fields => fields
  | Json.str s => s.toList.enum.map fun p => (toString p.1, Json.str (String.singleton p.2))
  | Json.arr items => items.enum.map fun p => (toString p.1, p.2)
  | _ => []

/-- Model of `\x7b ...v, id: rid \x7d` (equally assigning `id` on a spread copy). -/
def jsSpreadSetId (v : Json) (rid : Json) : Json :=
  Json.obj (setAssoc (jsSpreadFields v) "id" rid)

/-- String escaping used by `JSON.stringify` (the characters the proxy
can actually meet in method/param strings). -/
def jsonEscape (s : String) : String :=
  s.toList.foldl
    (fun acc c =>
      if c = '"' then acc ++ "\\\""
      else if c = '\\' then acc ++ "\\\\"
      else if c = '\n' then acc ++ "\\n"
      else acc.push c)
    ""

/-- Model of `JSON.stringify` (insertion order of object keys preserved). -/
def jsonStringify : Json → String
  | Json.null => "null"
  | Json.bool b => if b then "true" else "false"
  | Json.num n => toString n
  | Json.str s => "\"" ++ jsonEscape s ++ "\""
  | Json.arr items =>
      "[" ++ String.intercalate "," (items.attach.map fun v => jsonStringify v.1) ++ "]"
  | Json.obj fields =>
      "\x7b" ++
        String.intercalate ","
          (fields.attach.map fun f =>
            "\"" ++ jsonEscape f.1.1 ++ "\":" ++ jsonStringify f.1.2) ++
      "\x7d"
decreasing_by
  · have h := List.sizeOf_lt_of_mem v.2
    simp [Json.arr.sizeOf_spec]
    omega
  · have h := List.sizeOf_lt_of_mem f.2
    obtain ⟨⟨a, b⟩, hm⟩ := f
    simp [Json.obj.sizeOf_spec] at h ⊢
    omega

/-! ## Response cache (`toolCache` / `cacheTimestamps`, TTL 5 minutes) -/

/-- The constant `CACHE_TTL = 5 * 60 * 1000`. -/
def CACHE_TTL : Nat := 5 * 60 * 1000

/-- The two `Map`s backing the response cache, as association lists. -/
structure CacheState where
  toolCache : List (String × Json)
  cacheTimestamps : List (String × Nat)

/-- Key builder `getCacheKey`: the method, an underscore, and the stringified params (empty object when absent). -/
def jsToString : Json → String
  | Json.null => "null"
  | Json.bool b => if b then "true" else "false"
  | Json.num n => toString n
  | Json.str s => s
  | Json.arr _ => ""
  | Json.obj _ => "[object Object]"

def jsToStringO : Option Json → String
  | none => "undefined"
  | some v => jsToString v

def getCacheKey (request : Json) : String :=
  jsToStringO (getField request "method") ++ "_" ++
    jsonStringify (jsOrJ (getField request "params") (Json.obj []))

/-- Lookup `getCachedResponse`: an entry whose timestamp is missing, `0`, or
older than the TTL is deleted from both maps and reported absent
(`null`); otherwise the stored value is returned and the maps are left
untouched.  Returns the looked-up value together with the state after
the lazy purge. -/
def getCachedResponse (st : CacheState) (now : Nat) (cacheKey : String) :
    Option Json × CacheState :=
  let expired : Option Json × CacheState :=
    (none,
      { toolCache := removeAssoc st.toolCache cacheKey,
        cacheTimestamps := removeAssoc st.cacheTimestamps cacheKey })
  match lookupAssoc st.cacheTimestamps cacheKey with
  | none => expired
  | some timestamp =>
      if timestamp = 0 then expired
      else if CACHE_TTL < now - timestamp then expired
      else (lookupAssoc st.toolCache cacheKey, st)

/-- Store `setCachedResponse`: stores the value with the current timestamp. -/
def setCachedResponse (st : CacheState) (now : Nat) (cacheKey : String)
    (response : Json) : CacheState :=
  { toolCache := setAssoc st.toolCache cacheKey response,
    cacheTimestamps := setAssoc st.cacheTimestamps cacheKey now }

/-- Predicate `shouldCache`: caching enabled and the method is one of the three
list operations. -/
def shouldCache (disableCache : Bool) (request : Json) : Bool :=
  if disableCache then false
  else
    match getField request "method" with
    | some (Json.str m) => m ∈ ["tools/list", "resources/list", "prompts/list"]
    | _ => false

/-! ## Backoff calculator (`calculateBackoffDelay`)

Modelled over `ℚ`; `rand` stands for the value drawn from
`Math.random()` (which lies in `[0, 1)`). -/

def calculateBackoffDelay (baseDelay maxDelay : ℚ) (jitter : Bool)
    (attempt : Nat) (rand : ℚ) : ℚ :=
  let delay := min (baseDelay * 2 ^ attempt) maxDelay
  let delay :=
    if jitter then
      let jitterAmount := delay * (1 / 4)
      delay + (rand * 2 - 1) * jitterAmount
    else delay
  max delay 0

/-! ## Retry orchestrator (`sendToServerWithRetry`)

The transport is a function from the attempt index to that attempt's
outcome.  The second component of the result counts the dispatch
attempts actually made. -/

def sendToServerWithRetry {ε α : Type} (transport : Nat → Except ε α)
    (maxRetries : Nat) (attempt : Nat) : Except ε α × Nat :=
  match transport attempt with
  | Except.ok a => (Except.ok a, 1)
  | Except.error e =>
      if h : maxRetries ≤ attempt then (Except.error e, 1)
      else
        let rest := sendToServerWithRetry transport maxRetries (attempt + 1)
        (rest.1, rest.2 + 1)
termination_by maxRetries - attempt
decreasing_by omega

/-! ## Error normalizer (`isValidJsonRpcResponse`,
`convertServerErrorToJsonRpc`, and the end-of-body logic of
`handleJSONResponse`) -/

/-- JS `typeof v === 'object'` test (true for objects, arrays and `null`). -/
def isObjectType : Json → Bool
  | Json.obj _ => true
  | Json.arr _ => true
  | Json.null => true
  | _ => false

def isArrayType : Json → Bool
  | Json.arr _ => true
  | _ => false

/-- The PHP-exception-shaped field names screened out by the validator. -/
def phpErrorFields : List String := ["message", "exception", "file", "line", "trace"]

/-- Test `data[field] !== undefined && typeof data[field] === 'string'`. -/
def isStringField (data : Json) (field : String) : Bool :=
  match getField data field with
  | some (Json.str _) => true
  | _ => false

/-- Validator `isValidJsonRpcResponse`. -/
def isValidJsonRpcResponse (data : Json) : Bool :=
  if !jsTruthy data || !isObjectType data then false
  else
    match getField data "jsonrpc" with
    | some (Json.str s) =>
        if s ≠ "2.0" then false
        else if (getField data "result").isNone && (getField data "error").isNone then false
        else
          !(phpErrorFields.any fun field =>
            isStringField data field &&
              !jsTruthyO (getField data "result") &&
              !jsTruthyO (getField data "error"))
    | _ => false

/-- The three error envelopes `convertServerErrorToJsonRpc` can build. -/
def serverErrorEnvelope (requestId msg details : Json) : Json :=
  Json.obj [("jsonrpc", Json.str "2.0"), ("id", requestId),
    ("error", Json.obj [("code", Json.num (-32603)), ("message", msg),
      ("data", Json.obj [("type", Json.str "server_error"), ("details", details)])])]

def validationErrorEnvelope (requestId details : Json) : Json :=
  Json.obj [("jsonrpc", Json.str "2.0"), ("id", requestId),
    ("error", Json.obj [("code", Json.num (-32600)),
      ("message", Json.str "Server validation error"),
      ("data", Json.obj [("type", Json.str "validation_error"), ("details", details)])])]

def malformedResponseEnvelope (requestId : Json) (responseData : String) : Json :=
  Json.obj [("jsonrpc", Json.str "2.0"), ("id", requestId),
    ("error", Json.obj [("code", Json.num (-32603)),
      ("message", Json.str "Invalid server response"),
      ("data", Json.obj [("type", Json.str "malformed_response"),
        ("original", Json.str (responseData.take 200))])])]

/-- Converter `convertServerErrorToJsonRpc`.  Here `parsed = none` models the call
sites that pass JS `null`.  The `catch` branch of the source (a
`-32700` parse-error envelope) is unreachable: the `try` body performs
only guarded property reads and `substring` on a string, none of which
can throw, so the model is the `try` body. -/
def convertServerErrorToJsonRpc (responseData : String) (parsed : Option Json) : Json :=
  let requestId : Json :=
    match parsed with
    | some p => if jsTruthy p then (getField p "id").getD Json.null else Json.null
    | none => Json.null
  match parsed with
  | some p =>
      if jsTruthy p && isObjectType p then
        if jsTruthyO (getField p "message") || jsTruthyO (getField p "exception") then
          serverErrorEnvelope requestId
            (jsOrJ (getField p "message") (Json.str "Server internal error"))
            (jsOrJ (getField p "exception")
              (jsOrJ (getField p "message") (Json.str "Unknown server error")))
        else if isArrayType p then
          validationErrorEnvelope requestId p
        else
          malformedResponseEnvelope requestId responseData
      else malformedResponseEnvelope requestId responseData
  | none => malformedResponseEnvelope Json.null responseData

/-- End-of-body logic of `handleJSONResponse`: `parsed` is the result
of `JSON.parse(data)` (`none` when the parse threw), and the returned
envelope is the value the dispatcher resolves with.  This path never
rejects. -/
def handleJSONResponseEnd (data : String) (parsed : Option Json) : Json :=
  match parsed with
  | some p =>
      if isValidJsonRpcResponse p then p
      else convertServerErrorToJsonRpc data (some p)
  | none => convertServerErrorToJsonRpc data none

/-! ## Message loop (`handleIncomingMessage`)

One invocation of `handleIncomingMessage` is modelled as a function of
the parse result of the input line (`Except.error` models a throwing
`JSON.parse`, carrying the thrown message), the current cache state and
clock, and the outcome of the retried dispatch for the forwarded
request (`Except.error` models `sendToServerWithRetry` rethrowing after
exhausting its retries).  It returns the new cache state and the list
of JSON lines written to stdout (as parsed envelopes).  The
fire-and-forget `notifications/initialized` call after `initialize`
only logs, so it has no effect on this state. -/

/-- Equivalent of `String.startsWith`, computed on the underlying character lists
(kernel-computable, same semantics). -/
def strStartsWith (s pre : String) : Bool := pre.toList.isPrefixOf s.toList

/-- The catch-all `-32603` envelope of the `catch` block. -/
def internalErrorEnvelope (requestId : Json) (errMsg : String) : Json :=
  Json.obj [("jsonrpc", Json.str "2.0"), ("id", requestId),
    ("error", Json.obj [("code", Json.num (-32603)),
      ("message", Json.str "Internal error"), ("data", Json.str errMsg)])]

/-- Step `if (requestId !== null) response = \x7b ...response, id: requestId \x7d`. -/
def applyRequestId (response : Json) (requestId : Json) : Json :=
  match requestId with
  | Json.null => response
  | rid => jsSpreadSetId response rid

/-- Cache-hit path: `response = { ...cachedResponse }` followed by
`if (requestId !== null) { response.id = requestId; }`. -/
def cacheHitResponse (cached : Json) (requestId : Json) : Json :=
  match requestId with
  | Json.null => Json.obj (jsSpreadFields cached)
  | rid => Json.obj (setAssoc (jsSpreadFields cached) "id" rid)

/-- Test `parsed.method === 'initialize'`. -/
def isInitializeMethod (p : Json) : Bool :=
  match getField p "method" with
  | some (Json.str s) => s = "initialize"
  | _ => false

/-- The request/cache/forward pipeline shared by the `initialize`,
cacheable and plain branches (steps after the notification check). -/
def dispatchCore (disableCache : Bool) (st : CacheState) (now : Nat) (p : Json)
    (requestId : Json) (sendResult : Except String Json) : CacheState × List Json :=
  if isInitializeMethod p then
    -- response written immediately; the trailing notifications/initialized
    -- call only logs, so the observable outcome matches the plain branch
    match sendResult with
    | Except.ok r => (st, [applyRequestId r requestId])
    | Except.error e => (st, [internalErrorEnvelope requestId e])
  else if shouldCache disableCache p then
    let cacheKey := getCacheKey p
    let looked := getCachedResponse st now cacheKey
    if jsTruthyO looked.1 then
      (looked.2, [cacheHitResponse (looked.1.getD Json.null) requestId])
    else
      match sendResult with
      | Except.ok r =>
          (setCachedResponse looked.2 now cacheKey r, [applyRequestId r requestId])
      | Except.error e => (looked.2, [internalErrorEnvelope requestId e])
  else
    match sendResult with
    | Except.ok r => (st, [applyRequestId r requestId])
    | Except.error e => (st, [internalErrorEnvelope requestId e])

/-- The per-line handler `handleIncomingMessage`. -/
def handleIncomingMessage (disableCache : Bool) (st : CacheState) (now : Nat)
    (message : Except String Json) (sendResult : Except String Json) :
    CacheState × List Json :=
  match message with
  | Except.error e => (st, [internalErrorEnvelope Json.null e])
  | Except.ok Json.null =>
      -- `parsed.id` on JS null throws before requestId is assigned
      (st, [internalErrorEnvelope Json.null
        "Cannot read properties of null (reading 'id')"])
  | Except.ok p =>
      let requestId := (getField p "id").getD Json.null
      match getField p "method" with
      | some m =>
          if jsTruthy m then
            match m with
            | Json.str s =>
                if strStartsWith s "notifications/" then (st, [])
                else dispatchCore disableCache st now p requestId sendResult
            | _ =>
                -- `parsed.method.startsWith` on a truthy non-string throws
                (st, [internalErrorEnvelope requestId
                  "parsed.method.startsWith is not a function"])
          else dispatchCore disableCache st now p requestId sendResult
      | none => dispatchCore disableCache st now p requestId sendResult

/-! ## Single-request entry points (`proxyRequest`, `handleHttpRequest`) -/

/-- JS `request?.id || null`. -/
def jsIdOrNull (request : Json) : Json :=
  match getField request "id" with
  | some v => if jsTruthy v then v else Json.null
  | none => Json.null

/-- Entry point `proxyRequest`: returns the retried dispatch result, or on failure
a `-32603` envelope; never rejects. -/
def proxyRequest (request : Json) (sendResult : Except String Json) : Json :=
  match sendResult with
  | Except.ok r => r
  | Except.error e => internalErrorEnvelope (jsIdOrNull request) e

/-- Entry point `handleHttpRequest`: same pipeline as `proxyRequest`. -/
def handleHttpRequest (request : Json) (sendResult : Except String Json) : Json :=
  match sendResult with
  | Except.ok r => r
  | Except.error e => internalErrorEnvelope (jsIdOrNull request) e

/-! ## SSE consumption (`handleSSEResponse`, `parseSSEEvent`)

Modelled over `List Char`.  `splitSep` mirrors JS `String.split(sep)`
for a non-empty separator: non-overlapping, leftmost-first matches.
`JSON.parse` on an event's data is abstracted as a function
`jparse : List Char → Option Json` (the dispatcher only branches on
whether the parse succeeds and on the parsed value). -/

/-- Index of the first occurrence of `sep` in `s` (`none` if absent). -/
def findIdx1 (sep : List Char) : List Char → Option Nat
  | [] => if sep.isPrefixOf [] then some 0 else none
  | c :: s' =>
      if sep.isPrefixOf (c :: s') then some 0
      else (findIdx1 sep s').map (· + 1)

theorem findIdx1_isPrefixOf {sep s : List Char} {i : Nat}
    (h : findIdx1 sep s = some i) : sep.isPrefixOf (s.drop i) := by
  induction s generalizing i with
  | nil =>
      unfold findIdx1 at h
      split at h
      · rename_i hpre
        cases h
        simpa using hpre
      · cases h
  | cons c s' ih =>
      unfold findIdx1 at h
      split at h
      · rename_i hpre
        cases h
        simpa using hpre
      · cases hf : findIdx1 sep s' with
        | none => rw [hf] at h; cases h
        | some j =>
            rw [hf] at h
            cases h
            simpa using ih hf

theorem findIdx1_bound {sep s : List Char} {i : Nat} (hsep : sep ≠ [])
    (h : findIdx1 sep s = some i) : i + sep.length ≤ s.length := by
  have hpre := findIdx1_isPrefixOf h
  have hlen : sep.length ≤ (s.drop i).length :=
    (List.isPrefixOf_iff_prefix.mp hpre).length_le
  have hne : s.drop i ≠ [] := by
    intro hnil
    rw [hnil] at hpre
    exact hsep (List.prefix_nil.mp (List.isPrefixOf_iff_prefix.mp hpre))
  have hi : i ≤ s.length := by
    by_contra hgt
    exact hne (List.drop_eq_nil_of_le (by omega))
  rw [List.length_drop] at hlen
  omega

theorem findIdx1_append {sep s t : List Char} {i : Nat}
    (h : findIdx1 sep s = some i) : findIdx1 sep (s ++ t) = some i := by
  induction s generalizing i with
  | nil =>
      unfold findIdx1 at h
      split at h
      · rename_i hpre
        cases h
        have hnil : sep = [] :=
          List.prefix_nil.mp (List.isPrefixOf_iff_prefix.mp (by simpa using hpre))
        subst hnil
        cases t with
        | nil => rfl
        | cons c t' => simp [findIdx1, List.isPrefixOf]
      · cases h
  | cons c s' ih =>
      unfold findIdx1 at h ⊢
      split at h
      · rename_i hpre
        cases h
        have h2 : (c :: s') <+: (c :: s') ++ t := List.prefix_append _ _
        have h3 : sep <+: (c :: s') ++ t :=
          (List.isPrefixOf_iff_prefix.mp hpre).trans h2
        have hpre2 : sep.isPrefixOf (c :: (s' ++ t)) = true :=
          List.isPrefixOf_iff_prefix.mpr (by simpa using h3)
        simp only [List.cons_append]
        rw [if_pos hpre2]
      · rename_i hnpre
        cases hf : findIdx1 sep s' with
        | none => rw [hf] at h; cases h
        | some j =>
            rw [hf] at h
            cases h
            have hsep : sep ≠ [] := by
              intro hnil
              exact hnpre (by simp [hnil, List.isPrefixOf])
            have hb := findIdx1_bound hsep hf
            have hnpre' : ¬ sep.isPrefixOf (c :: (s' ++ t)) = true := by
              intro hpre'
              have h1 : sep <+: (c :: s') ++ t := by
                simpa using List.isPrefixOf_iff_prefix.mp hpre'
              have h2 : (c :: s') <+: (c :: s') ++ t := List.prefix_append _ _
              have h3 : sep <+: c :: s' :=
                List.prefix_of_prefix_length_le h1 h2 (by simp; omega)
              exact hnpre (List.isPrefixOf_iff_prefix.mpr h3)
            simp only [List.cons_append]
            rw [if_neg hnpre']
            rw [ih hf]
            rfl

/-- JS `String.split` for a non-empty separator (degenerate on an empty
separator, which the proxy never uses). -/
def splitSep (sep : List Char) (s : List Char) : List (List Char) :=
  if hsep : sep = [] then [s]
  else
    match hf : findIdx1 sep s with
    | none => [s]
    | some i => s.take i :: splitSep sep (s.drop (i + sep.length))
termination_by s.length
decreasing_by
  have hb := findIdx1_bound hsep hf
  have hpos : 0 < sep.length := List.length_pos.mpr hsep
  simp [List.length_drop]
  omega

/-- Last element of a split (the residual buffer). -/
def lastD : List (List Char) → List Char
  | [] => []
  | [a] => a
  | _ :: rest => lastD rest

theorem lastD_cons_of_ne_nil {a : List Char} {l : List (List Char)}
    (h : l ≠ []) : lastD (a :: l) = lastD l := by
  cases l with
  | nil => exact absurd rfl h
  | cons b m => rfl

theorem lastD_append_of_ne_nil {A B : List (List Char)} (h : B ≠ []) :
    lastD (A ++ B) = lastD B := by
  induction A with
  | nil => rfl
  | cons a A' ih =>
      rw [List.cons_append, lastD_cons_of_ne_nil (by simp [h]), ih]

theorem dropLast_cons_of_ne_nil {a : List Char} {l : List (List Char)}
    (h : l ≠ []) : (a :: l).dropLast = a :: l.dropLast := by
  cases l with
  | nil => exact absurd rfl h
  | cons b m => rfl

theorem dropLast_append_of_ne_nil {A B : List (List Char)} (h : B ≠ []) :
    (A ++ B).dropLast = A ++ B.dropLast := by
  induction A with
  | nil => rfl
  | cons a A' ih =>
      rw [List.cons_append, dropLast_cons_of_ne_nil (by simp [h]), ih,
        List.cons_append]

theorem splitSep_ne_nil (sep s : List Char) : splitSep sep s ≠ [] := by
  unfold splitSep
  split
  · simp
  · split <;> simp

theorem splitSep_of_none {sep s : List Char} (hsep : sep ≠ [])
    (hf : findIdx1 sep s = none) : splitSep sep s = [s] := by
  conv_lhs => rw [splitSep]
  rw [dif_neg hsep]
  split
  · rfl
  · rename_i i hf'
    rw [hf] at hf'
    cases hf'

theorem splitSep_of_some {sep s : List Char} {i : Nat} (hsep : sep ≠ [])
    (hf : findIdx1 sep s = some i) :
    splitSep sep s = s.take i :: splitSep sep (s.drop (i + sep.length)) := by
  conv_lhs => rw [splitSep]
  rw [dif_neg hsep]
  split
  · rename_i hf'
    rw [hf] at hf'
    cases hf'
  · rename_i j hf'
    rw [hf] at hf'
    cases hf'
    rfl

/-- Splitting a concatenation: the complete blocks of `s` are kept, and
the residual last block of `s` is re-split together with `t`.  This is
why the incremental `buffer.split` loop of `handleSSEResponse` sees the
same blocks as a one-shot split of the whole stream. -/
theorem splitSep_append (sep : List Char) (hsep : sep ≠ []) :
    ∀ n (s t : List Char), s.length ≤ n →
      splitSep sep (s ++ t) =
        (splitSep sep s).dropLast ++ splitSep sep (lastD (splitSep sep s) ++ t) := by
  intro n
  induction n with
  | zero =>
      intro s t hlen
      have hs : s = [] := List.length_eq_zero.mp (Nat.le_zero.mp hlen)
      subst hs
      have hf : findIdx1 sep [] = none := by
        unfold findIdx1
        rw [if_neg]
        simpa using fun h => hsep (List.prefix_nil.mp (List.isPrefixOf_iff_prefix.mp h))
      rw [splitSep_of_none hsep hf]
      simp [lastD]
  | succ n ih =>
      intro s t hlen
      cases hf : findIdx1 sep s with
      | none =>
          rw [splitSep_of_none hsep hf]
          simp [lastD]
      | some i =>
          have hb := findIdx1_bound hsep hf
          have hfa := findIdx1_append (t := t) hf
          have hile : i ≤ s.length := by omega
          rw [splitSep_of_some hsep hfa, splitSep_of_some hsep hf]
          rw [List.take_append_of_le_length hile,
            List.drop_append_of_le_length hb]
          have hrest :=
            ih (s.drop (i + sep.length)) t
              (by
                rw [List.length_drop]
                have hpos : 0 < sep.length := List.length_pos.mpr hsep
                omega)
          rw [hrest]
          have hnn := splitSep_ne_nil sep (s.drop (i + sep.length))
          rw [dropLast_cons_of_ne_nil hnn, lastD_cons_of_ne_nil hnn,
            List.cons_append]

/-- The residual buffer left by a split contains no separator. -/
theorem findIdx1_lastD_splitSep (sep : List Char) (hsep : sep ≠ []) :
    ∀ n (s : List Char), s.length ≤ n →
      findIdx1 sep (lastD (splitSep sep s)) = none := by
  intro n
  induction n with
  | zero =>
      intro s hlen
      have hs : s = [] := List.length_eq_zero.mp (Nat.le_zero.mp hlen)
      subst hs
      have hf : findIdx1 sep [] = none := by
        unfold findIdx1
        rw [if_neg]
        simpa using fun h => hsep (List.prefix_nil.mp (List.isPrefixOf_iff_prefix.mp h))
      rw [splitSep_of_none hsep hf]
      simpa [lastD] using hf
  | succ n ih =>
      intro s hlen
      cases hf : findIdx1 sep s with
      | none =>
          rw [splitSep_of_none hsep hf]
          simpa [lastD] using hf
      | some i =>
          have hb := findIdx1_bound hsep hf
          rw [splitSep_of_some hsep hf]
          have hnn := splitSep_ne_nil sep (s.drop (i + sep.length))
          rw [lastD_cons_of_ne_nil hnn]
          exact ih (s.drop (i + sep.length))
            (by
              rw [List.length_drop]
              have hpos : 0 < sep.length := List.length_pos.mpr hsep
              omega)

/-- Line tags `'data: '` and `'event: '`. -/
def dataLineStart : List Char := ['d', 'a', 't', 'a', ':', ' ']

def eventLineStart : List Char := ['e', 'v', 'e', 'n', 't', ':', ' ']

/-- Block parser `parseSSEEvent`: splits the block on newlines, concatenates the
`data: ` payloads in order (stripped of the 6-character tag) and keeps
the last `event: ` type.  Returns `(type, data)`. -/
def parseSSEEvent (data : List Char) : List Char × List Char :=
  (splitSep ['\n'] data).foldl
    (fun acc line =>
      if dataLineStart.isPrefixOf line then (acc.1, acc.2 ++ line.drop 6)
      else if eventLineStart.isPrefixOf line then (line.drop 7, acc.2)
      else acc)
    ([], [])

/-- Truthiness of `s.trim()`: some non-whitespace character present. -/
def hasNonWs (s : List Char) : Bool := s.any fun c => !c.isWhitespace

/-- Outcome of one block inside the `data` handler: `some v` when the
block is non-blank, its data payload non-empty and `JSON.parse`
succeeds on it (`resolve(parsed)`); `none` otherwise (blank block,
empty payload, or malformed JSON, which is only logged). -/
def midEvent (jparse : List Char → Option Json) (eventData : List Char) :
    Option Json :=
  if hasNonWs eventData then
    let d := (parseSSEEvent eventData).2
    if d.isEmpty then none else jparse d
  else none

/-- Settlement state of the promise returned by `sendToServer` while an
SSE body is being consumed. -/
inductive SSEOutcome where
  | pending : SSEOutcome
  | resolved (v : Json) : SSEOutcome
  | rejected (msg : String) : SSEOutcome

/-- Promise `resolve(v)`: first settlement wins. -/
def settleResolve (o : SSEOutcome) (r : Option Json) : SSEOutcome :=
  match o, r with
  | SSEOutcome.pending, some v => SSEOutcome.resolved v
  | o, _ => o

/-- The separator `'\n\n'` used by `buffer.split`. -/
def sseSep : List Char := ['\n', '\n']

/-- One `data` event of the HTTP response stream: append the chunk to
the buffer, split on blank lines, process every complete block, keep
the residual. -/
def sseStep (jparse : List Char → Option Json)
    (st : SSEOutcome × List Char) (chunk : List Char) : SSEOutcome × List Char :=
  let parts := splitSep sseSep (st.2 ++ chunk)
  (parts.dropLast.foldl (fun o ev => settleResolve o (midEvent jparse ev)) st.1,
   lastD parts)

/-- The `end` handler: a non-blank residual buffer is parsed as a final
event; malformed JSON there calls `reject` (a no-op if already
settled). -/
def sseEnd (jparse : List Char → Option Json) (st : SSEOutcome × List Char) :
    SSEOutcome :=
  if hasNonWs st.2 then
    let d := (parseSSEEvent st.2).2
    if d.isEmpty then st.1
    else
      match jparse d with
      | some v => settleResolve st.1 (some v)
      | none =>
          match st.1 with
          | SSEOutcome.pending => SSEOutcome.rejected "Invalid JSON in final SSE"
          | o => o
  else st.1

/-- Consumer `handleSSEResponse` over a whole response stream delivered as a
sequence of chunks. -/
def handleSSEResponse (jparse : List Char → Option Json)
    (chunks : List (List Char)) : SSEOutcome :=
  sseEnd jparse (chunks.foldl (sseStep jparse) (SSEOutcome.pending, []))

/-! ## Theorems -/

/-- C7: for every attempt, with `0 ≤ baseDelay`, `0 ≤ maxDelay` and the
random draw in `[0, 1)`, the backoff delay `d` satisfies
`0 ≤ d ≤ maxDelay * 1.25`; without jitter it equals
`min(baseDelay * 2^attempt, maxDelay)`, and with jitter it is that
value perturbed by a factor in `[-25%, +25%]` and clamped to `≥ 0`. -/
theorem calculateBackoffDelay_spec (baseDelay maxDelay rand : ℚ) (jitter : Bool)
    (attempt : Nat) (hb : 0 ≤ baseDelay) (hM : 0 ≤ maxDelay)
    (hr0 : 0 ≤ rand) (hr1 : rand < 1) :
    (0 ≤ calculateBackoffDelay baseDelay maxDelay jitter attempt rand ∧
      calculateBackoffDelay baseDelay maxDelay jitter attempt rand ≤ maxDelay * (5 / 4)) ∧
    (jitter = false →
      calculateBackoffDelay baseDelay maxDelay jitter attempt rand =
        min (baseDelay * 2 ^ attempt) maxDelay) ∧
    (jitter = true →
      ∃ f : ℚ, -(1 / 4) ≤ f ∧ f ≤ 1 / 4 ∧
        calculateBackoffDelay baseDelay maxDelay jitter attempt rand =
          max (min (baseDelay * 2 ^ attempt) maxDelay * (1 + f)) 0) := by
  have h2p : (0 : ℚ) ≤ baseDelay * 2 ^ attempt := by positivity
  set d0 : ℚ := min (baseDelay * 2 ^ attempt) maxDelay with hd0
  have hd0nn : 0 ≤ d0 := le_min h2p hM
  have hd0M : d0 ≤ maxDelay := min_le_right _ _
  cases jitter with
  | false =>
      have hval : calculateBackoffDelay baseDelay maxDelay false attempt rand = d0 := by
        simp [calculateBackoffDelay, hd0, max_eq_left hd0nn]
      exact ⟨⟨by rw [hval]; exact hd0nn, by rw [hval]; nlinarith⟩,
        fun _ => by rw [hval], fun h => absurd h (by decide)⟩
  | true =>
      set f : ℚ := (rand * 2 - 1) * (1 / 4) with hf
      have hfl : -(1 / 4) ≤ f := by rw [hf]; nlinarith
      have hfu : f ≤ 1 / 4 := by rw [hf]; nlinarith
      have hval : calculateBackoffDelay baseDelay maxDelay true attempt rand =
          max (d0 * (1 + f)) 0 := by
        simp only [calculateBackoffDelay, if_pos, hd0, hf]
        ring_nf
      have hub : d0 * (1 + f) ≤ maxDelay * (5 / 4) := by nlinarith
      exact ⟨⟨by rw [hval]; exact le_max_right _ _,
        by rw [hval]; exact max_le hub (by nlinarith)⟩,
        fun h => absurd h (by decide),
        fun _ => ⟨f, hfl, hfu, hval⟩⟩

/-- Witness for C7 at a concrete policy (`baseDelay = 1000`,
`maxDelay = 30000`, jitter on, attempt 2, `Math.random() = 1/2`). -/
theorem calculateBackoffDelay_spec_witness :
    0 ≤ calculateBackoffDelay 1000 30000 true 2 (1 / 2) ∧
      calculateBackoffDelay 1000 30000 true 2 (1 / 2) ≤ 30000 * (5 / 4) :=
  (calculateBackoffDelay_spec 1000 30000 (1 / 2) true 2 (by norm_num)
    (by norm_num) (by norm_num) (by norm_num)).1

theorem sendToServerWithRetry_ok {ε α : Type} {transport : Nat → Except ε α}
    {attempt : Nat} {a : α} (maxRetries : Nat)
    (h : transport attempt = Except.ok a) :
    sendToServerWithRetry transport maxRetries attempt = (Except.ok a, 1) := by
  unfold sendToServerWithRetry
  rw [h]

theorem sendToServerWithRetry_err_last {ε α : Type} {transport : Nat → Except ε α}
    {maxRetries attempt : Nat} {e : ε} (h : transport attempt = Except.error e)
    (hge : maxRetries ≤ attempt) :
    sendToServerWithRetry transport maxRetries attempt = (Except.error e, 1) := by
  unfold sendToServerWithRetry
  rw [h]
  simp [hge]

theorem sendToServerWithRetry_err_step {ε α : Type} {transport : Nat → Except ε α}
    {maxRetries attempt : Nat} {e : ε} (h : transport attempt = Except.error e)
    (hlt : attempt < maxRetries) :
    sendToServerWithRetry transport maxRetries attempt =
      ((sendToServerWithRetry transport maxRetries (attempt + 1)).1,
       (sendToServerWithRetry transport maxRetries (attempt + 1)).2 + 1) := by
  conv_lhs => rw [sendToServerWithRetry]
  rw [h]
  simp [Nat.not_le.mpr hlt]

/-- C5: if the transport fails on every attempt, the retry loop makes
exactly `maxRetries + 1` dispatch attempts and re-raises the last
failure unchanged; if attempt `k ≤ maxRetries` is the first to succeed,
its result is returned after exactly `k + 1` attempts. -/
theorem sendToServerWithRetry_spec {ε α : Type} (transport : Nat → Except ε α)
    (maxRetries : Nat) :
    ((∀ i, ∃ e, transport i = Except.error e) →
      sendToServerWithRetry transport maxRetries 0 =
        (transport maxRetries, maxRetries + 1)) ∧
    (∀ k a, k ≤ maxRetries → transport k = Except.ok a →
      (∀ i, i < k → ∃ e, transport i = Except.error e) →
      sendToServerWithRetry transport maxRetries 0 = (Except.ok a, k + 1)) := by
  have key : ∀ gas attempt, gas = maxRetries - attempt → attempt ≤ maxRetries →
      ((∀ i, attempt ≤ i → i ≤ maxRetries → ∃ e, transport i = Except.error e) →
        sendToServerWithRetry transport maxRetries attempt =
          (transport maxRetries, maxRetries - attempt + 1)) ∧
      (∀ k a, attempt ≤ k → k ≤ maxRetries → transport k = Except.ok a →
        (∀ i, attempt ≤ i → i < k → ∃ e, transport i = Except.error e) →
        sendToServerWithRetry transport maxRetries attempt =
          (Except.ok a, k - attempt + 1)) := by
    intro gas
    induction gas with
    | zero =>
        intro attempt hgas hle
        have heq : attempt = maxRetries := by omega
        subst heq
        constructor
        · intro hfail
          obtain ⟨e, he⟩ := hfail attempt le_rfl le_rfl
          rw [sendToServerWithRetry_err_last he le_rfl, he]
          simp
        · intro k a hak hkm hk _
          have : k = attempt := by omega
          subst this
          rw [sendToServerWithRetry_ok _ hk]
          simp
    | succ gas ih =>
        intro attempt hgas hle
        have hlt : attempt < maxRetries := by omega
        have ih' := ih (attempt + 1) (by omega) (by omega)
        constructor
        · intro hfail
          obtain ⟨e, he⟩ := hfail attempt le_rfl hle
          rw [sendToServerWithRetry_err_step he hlt]
          have := ih'.1 (fun i hi1 hi2 => hfail i (by omega) hi2)
          rw [this]
          simp
          omega
        · intro k a hak hkm hk hfirst
          rcases Nat.eq_or_lt_of_le hak with heq | hklt
          · subst heq
            rw [sendToServerWithRetry_ok _ hk]
            simp
          · obtain ⟨e, he⟩ := hfirst attempt le_rfl hklt
            rw [sendToServerWithRetry_err_step he hlt]
            have := ih'.2 k a (by omega) hkm hk
              (fun i hi1 hi2 => hfirst i (by omega) hi2)
            rw [this]
            simp
            omega
  have base := key (maxRetries - 0) 0 rfl (Nat.zero_le _)
  constructor
  · intro hfail
    have := base.1 (fun i _ hi2 => hfail i)
    simpa using this
  · intro k a hk htk hfirst
    have := base.2 k a (Nat.zero_le _) hk htk (fun i _ hi2 => hfirst i hi2)
    simpa using this

/-- Witness for C5: a transport failing on attempts 0..2 with
`maxRetries = 2` yields 3 attempts and re-raises the last error; a
transport succeeding at attempt 1 stops after 2 attempts. -/
theorem sendToServerWithRetry_spec_witness :
    sendToServerWithRetry (fun i => (Except.error i : Except Nat Nat)) 2 0 =
        (Except.error 2, 3) ∧
      sendToServerWithRetry
          (fun i => if i = 0 then (Except.error 7 : Except Nat Nat) else Except.ok 42) 2 0 =
        (Except.ok 42, 2) := by
  constructor
  · have := (sendToServerWithRetry_spec
      (fun i => (Except.error i : Except Nat Nat)) 2).1 (fun i => ⟨i, rfl⟩)
    simpa using this
  · have := (sendToServerWithRetry_spec
      (fun i => if i = 0 then (Except.error 7 : Except Nat Nat) else Except.ok 42) 2).2
      1 42 (by omega) (by simp)
      (fun i hi => ⟨7, by interval_cases i <;> simp⟩)
    simpa using this

theorem lookupAssoc_setAssoc_self {α : Type} (l : List (String × α))
    (k : String) (v : α) : lookupAssoc (setAssoc l k v) k = some v := by
  induction l with
  | nil => simp [setAssoc, lookupAssoc]
  | cons p rest ih =>
      obtain ⟨k', v'⟩ := p
      by_cases h : k' = k
      · simp [setAssoc, h, lookupAssoc]
      · simp [setAssoc, h, lookupAssoc, ih]

/-- The keys of an association list are pairwise distinct (the JS `Map`
invariant). -/
def KeysNodup {α : Type} (l : List (String × α)) : Prop :=
  (l.map Prod.fst).Nodup

theorem lookupAssoc_eq_none_of_not_mem_keys {α : Type}
    {l : List (String × α)} {k : String} (h : k ∉ l.map Prod.fst) :
    lookupAssoc l k = none := by
  induction l with
  | nil => rfl
  | cons p rest ih =>
      obtain ⟨k', v'⟩ := p
      simp only [List.map_cons, List.mem_cons, not_or] at h
      simp only [lookupAssoc, if_neg (show ¬k' = k from fun he => h.1 he.symm),
        ih h.2]

theorem mem_keys_setAssoc {α : Type} {l : List (String × α)} {k k'' : String}
    {v : α} (h : k'' ∈ (setAssoc l k v).map Prod.fst) :
    k'' ∈ l.map Prod.fst ∨ k'' = k := by
  induction l with
  | nil =>
      right
      simpa [setAssoc] using h
  | cons p rest ih =>
      obtain ⟨k', v'⟩ := p
      by_cases hk : k' = k
      · simp only [setAssoc, if_pos hk, List.map_cons] at h
        left
        simpa using h
      · simp only [setAssoc, if_neg hk, List.map_cons, List.mem_cons] at h
        rcases h with h | h
        · left
          simp [h]
        · rcases ih h with h' | h'
          · left
            simp only [List.map_cons, List.mem_cons]
            right
            exact h'
          · right
            exact h'

theorem keysNodup_setAssoc {α : Type} (l : List (String × α)) (k : String)
    (v : α) (h : KeysNodup l) : KeysNodup (setAssoc l k v) := by
  induction l with
  | nil => simp [KeysNodup, setAssoc]
  | cons p rest ih =>
      obtain ⟨k', v'⟩ := p
      simp only [KeysNodup, List.map_cons, List.nodup_cons] at h
      by_cases hk : k' = k
      · simp only [KeysNodup, setAssoc, if_pos hk, List.map_cons, List.nodup_cons]
        exact h
      · have hrest := ih h.2
        simp only [KeysNodup, setAssoc, if_neg hk, List.map_cons, List.nodup_cons]
        refine ⟨fun hmem => ?_, hrest⟩
        rcases mem_keys_setAssoc hmem with h' | h'
        · exact h.1 h'
        · exact hk h'

theorem lookupAssoc_removeAssoc_self {α : Type} (l : List (String × α))
    (k : String) (h : KeysNodup l) :
    lookupAssoc (removeAssoc l k) k = none := by
  induction l with
  | nil => rfl
  | cons p rest ih =>
      obtain ⟨k', v'⟩ := p
      simp only [KeysNodup, List.map_cons, List.nodup_cons] at h
      by_cases hk : k' = k
      · simp only [removeAssoc, if_pos hk]
        exact lookupAssoc_eq_none_of_not_mem_keys (hk ▸ h.1)
      · simp only [removeAssoc, if_neg hk, lookupAssoc, if_neg hk]
        exact ih h.2

/-- C3 counterexample: at exactly `Δ = 300000 ms` (the TTL), the guard
`now - timestamp > CACHE_TTL` is false, so the entry is still returned
— the claim says it should already be absent at `Δ ≥ 300000`. -/
theorem cacheTTL_boundary_counterexample :
    (getCachedResponse
        (setCachedResponse ⟨[], []⟩ 1 "tools/list_\x7b\x7d" (Json.num 7))
        (1 + 300000) "tools/list_\x7b\x7d").1 = some (Json.num 7) := by
  rfl

/-- C3 (amended): a value stored at time `T > 0` is returned unchanged
(and the cache left untouched) for any lookup at `T + Δ` with
`Δ ≤ 300000 ms`, and is reported absent and purged from both maps for
`Δ > 300000 ms` (given the `Map` invariant of pairwise-distinct keys). -/
theorem cacheTTL_spec (st : CacheState) (key : String) (v : Json) (T Δ : Nat)
    (hT : 0 < T) (hc : KeysNodup st.toolCache) (ht : KeysNodup st.cacheTimestamps) :
    (Δ ≤ CACHE_TTL →
      getCachedResponse (setCachedResponse st T key v) (T + Δ) key =
        (some v, setCachedResponse st T key v)) ∧
    (CACHE_TTL < Δ →
      (getCachedResponse (setCachedResponse st T key v) (T + Δ) key).1 = none ∧
      lookupAssoc
        (getCachedResponse (setCachedResponse st T key v) (T + Δ) key).2.toolCache
        key = none ∧
      lookupAssoc
        (getCachedResponse (setCachedResponse st T key v) (T + Δ) key).2.cacheTimestamps
        key = none) := by
  have hts : lookupAssoc (setCachedResponse st T key v).cacheTimestamps key = some T :=
    lookupAssoc_setAssoc_self _ _ _
  have hvc : lookupAssoc (setCachedResponse st T key v).toolCache key = some v :=
    lookupAssoc_setAssoc_self _ _ _
  have hsub : T + Δ - T = Δ := by omega
  constructor
  · intro hle
    unfold getCachedResponse
    rw [hts]
    dsimp only
    rw [if_neg (by omega), if_neg (by rw [hsub]; omega), hvc]
  · intro hgt
    unfold getCachedResponse
    rw [hts]
    dsimp only
    rw [if_neg (by omega), if_pos (by rw [hsub]; omega)]
    refine ⟨rfl, ?_, ?_⟩
    · exact lookupAssoc_removeAssoc_self _ _
        (keysNodup_setAssoc _ _ _ hc)
    · exact lookupAssoc_removeAssoc_self _ _
        (keysNodup_setAssoc _ _ _ ht)

/-- Witness for C3 at a concrete store/lookup pair: fresh at
`Δ = 200000`, absent and purged at `Δ = 300001`. -/
theorem cacheTTL_spec_witness :
    getCachedResponse (setCachedResponse ⟨[], []⟩ 5 "k" (Json.str "r")) (5 + 200000) "k" =
      (some (Json.str "r"), setCachedResponse ⟨[], []⟩ 5 "k" (Json.str "r")) ∧
    (getCachedResponse (setCachedResponse ⟨[], []⟩ 5 "k" (Json.str "r")) (5 + 300001) "k").1 =
      none :=
  ⟨(cacheTTL_spec ⟨[], []⟩ "k" (Json.str "r") 5 200000 (by decide)
      (by simp [KeysNodup]) (by simp [KeysNodup])).1 (by decide),
   ((cacheTTL_spec ⟨[], []⟩ "k" (Json.str "r") 5 300001 (by decide)
      (by simp [KeysNodup]) (by simp [KeysNodup])).2 (by decide)).1⟩

/-- Projection: the `error.code` member of an envelope. -/
def errorCode (e : Json) : Option Json :=
  (getField e "error").bind fun err => getField err "code"

/-- C10: `proxyRequest` and `handleHttpRequest` are total: the dispatch
result is returned unchanged on success, and on failure a `-32603`
Internal Error envelope is returned whose `id` is the request's `id`
when that id is truthy and `null` otherwise (so `0` and `""` become
`null`). -/
theorem singleRequestEntry_spec (request : Json) (sendResult : Except String Json) :
    (∀ r, sendResult = Except.ok r →
      proxyRequest request sendResult = r ∧
      handleHttpRequest request sendResult = r) ∧
    (∀ e, sendResult = Except.error e →
      proxyRequest request sendResult =
        Json.obj [("jsonrpc", Json.str "2.0"), ("id", jsIdOrNull request),
          ("error", Json.obj [("code", Json.num (-32603)),
            ("message", Json.str "Internal error"), ("data", Json.str e)])] ∧
      handleHttpRequest request sendResult = proxyRequest request sendResult) ∧
    (∀ v, getField request "id" = some v → jsTruthy v = true →
      jsIdOrNull request = v) ∧
    (∀ v, getField request "id" = some v → jsTruthy v = false →
      jsIdOrNull request = Json.null) ∧
    (getField request "id" = none → jsIdOrNull request = Json.null) := by
  refine ⟨?_, ?_, ?_, ?_, ?_⟩
  · intro r h
    subst h
    exact ⟨rfl, rfl⟩
  · intro e h
    subst h
    exact ⟨rfl, rfl⟩
  · intro v h ht
    simp [jsIdOrNull, h, ht]
  · intro v h ht
    simp [jsIdOrNull, h, ht]
  · intro h
    simp [jsIdOrNull, h]

/-- Witness for C10: a failing dispatch for a request with `id = 0`
yields the `-32603` envelope with `id` replaced by `null`. -/
theorem singleRequestEntry_spec_witness :
    proxyRequest (Json.obj [("id", Json.num 0), ("method", Json.str "tools/call")])
        (Except.error "socket hang up") =
      Json.obj [("jsonrpc", Json.str "2.0"), ("id", Json.null),
        ("error", Json.obj [("code", Json.num (-32603)),
          ("message", Json.str "Internal error"),
          ("data", Json.str "socket hang up")])] := by
  have h := (singleRequestEntry_spec
    (Json.obj [("id", Json.num 0), ("method", Json.str "tools/call")])
    (Except.error "socket hang up")).2.1 "socket hang up" rfl
  rw [h.1]
  rfl

set_option maxRecDepth 8192 in
/-- C1 counterexample: for the body `not json` (which fails to parse),
the dispatcher resolves the generic `-32603` "Invalid server response"
envelope of type `malformed_response` — not the claimed `-32700`
"Invalid JSON response from server" parse-error envelope (that branch
is the unreachable `catch` fallback). -/
theorem parseFailure_counterexample :
    handleJSONResponseEnd "not json" none =
      Json.obj [("jsonrpc", Json.str "2.0"), ("id", Json.null),
        ("error", Json.obj [("code", Json.num (-32603)),
          ("message", Json.str "Invalid server response"),
          ("data", Json.obj [("type", Json.str "malformed_response"),
            ("original", Json.str "not json")])])] ∧
    errorCode (handleJSONResponseEnd "not json" none) ≠ some (Json.num (-32700)) := by
  refine ⟨rfl, fun h => ?_⟩
  rw [show errorCode (handleJSONResponseEnd "not json" none) =
    some (Json.num (-32603)) from rfl] at h
  injection h with h1
  injection h1 with h2
  exact absurd h2 (by decide)

/-- C1 (amended): every raw body that fails to parse as JSON is
normalized to the envelope with code `-32603`, message
`"Invalid server response"`, data of type `malformed_response` carrying
the first 200 characters of the raw body, and `id: null`; the
dispatcher resolves (never rejects) this envelope, and the message loop
then writes it with the request's id substituted when that id is
non-null. -/
theorem parseFailure_spec (data : String) :
    handleJSONResponseEnd data none = malformedResponseEnvelope Json.null data ∧
    errorCode (handleJSONResponseEnd data none) = some (Json.num (-32603)) := by
  exact ⟨rfl, rfl⟩

/-- The validity condition of `isValidJsonRpcResponse`, spelled out as
the specification reads it (amended): an object whose protocol-version
member `jsonrpc` is the literal `"2.0"`, carrying at least one of
`result`/`error`, and carrying no string-valued exception-shaped field
while both `result` and `error` are falsy-or-absent. -/
def specValidEnvelope (p : Json) : Prop :=
  (∃ fields, p = Json.obj fields) ∧
  getField p "jsonrpc" = some (Json.str "2.0") ∧
  ((getField p "result").isSome ∨ (getField p "error").isSome) ∧
  ∀ f ∈ phpErrorFields, (∃ s, getField p f = some (Json.str s)) →
    (jsTruthyO (getField p "result") = true ∨ jsTruthyO (getField p "error") = true)

theorem isStringField_iff (p : Json) (f : String) :
    isStringField p f = true ↔ ∃ s, getField p f = some (Json.str s) := by
  unfold isStringField
  cases h : getField p f with
  | none => simp
  | some v => cases v <;> simp

theorem isValid_iff (p : Json) :
    isValidJsonRpcResponse p = true ↔ specValidEnvelope p := by
  cases p with
  | null => simp [isValidJsonRpcResponse, jsTruthy, specValidEnvelope]
  | bool b =>
      simp [isValidJsonRpcResponse, jsTruthy, isObjectType, specValidEnvelope]
  | num n =>
      simp [isValidJsonRpcResponse, jsTruthy, isObjectType, specValidEnvelope]
  | str s =>
      simp [isValidJsonRpcResponse, jsTruthy, isObjectType, specValidEnvelope,
        getField]
  | arr items =>
      simp [isValidJsonRpcResponse, jsTruthy, isObjectType, specValidEnvelope,
        getField]
  | obj fields =>
      unfold isValidJsonRpcResponse specValidEnvelope
      simp only [jsTruthy, isObjectType, Bool.not_true, Bool.or_self,
        Bool.false_or, Bool.false_eq_true, if_false]
      cases hjr : getField (Json.obj fields) "jsonrpc" with
      | none => simp [hjr]
      | some jv =>
          cases jv with
          | str s =>
              dsimp only
              by_cases hs : s = "2.0"
              · subst hs
                rw [if_neg (show ¬("2.0" ≠ "2.0") by simp)]
                by_cases hre : ((getField (Json.obj fields) "result").isNone &&
                    (getField (Json.obj fields) "error").isNone) = true
                · rw [if_pos hre]
                  simp only [Bool.and_eq_true, Option.isNone_iff_eq_none] at hre
                  constructor
                  · intro h
                    exact absurd h (by decide)
                  · rintro ⟨-, -, hsome, -⟩
                    rcases hsome with h1 | h1
                    · rw [hre.1] at h1
                      simp at h1
                    · rw [hre.2] at h1
                      simp at h1
                · rw [if_neg hre]
                  have hsome : (getField (Json.obj fields) "result").isSome = true ∨
                      (getField (Json.obj fields) "error").isSome = true := by
                    cases hr : getField (Json.obj fields) "result" with
                    | some v => left; simp
                    | none =>
                        cases he : getField (Json.obj fields) "error" with
                        | some w => right; simp
                        | none => exact absurd (by rw [hr, he]; rfl) hre
                  constructor
                  · intro hall
                    rw [Bool.not_eq_true', List.any_eq_false] at hall
                    refine ⟨⟨fields, rfl⟩, rfl, hsome, fun f hf hstr => ?_⟩
                    have h2 := hall f hf
                    rw [Bool.not_eq_true] at h2
                    rw [(isStringField_iff _ _).mpr hstr] at h2
                    simp only [Bool.true_and, Bool.and_eq_true, Bool.not_eq_true'] at h2
                    cases hx : jsTruthyO (getField (Json.obj fields) "result") with
                    | true => exact Or.inl rfl
                    | false =>
                        cases hy : jsTruthyO (getField (Json.obj fields) "error") with
                        | true => exact Or.inr rfl
                        | false =>
                            rw [hx, hy] at h2
                            simp at h2
                  · rintro ⟨-, -, -, hphp⟩
                    rw [Bool.not_eq_true', List.any_eq_false]
                    intro f hf
                    rw [Bool.not_eq_true]
                    by_cases hstr : isStringField (Json.obj fields) f = true
                    · rcases hphp f hf ((isStringField_iff _ _).mp hstr) with h1 | h1
                      · rw [hstr, h1]
                        rfl
                      · rw [hstr, h1]
                        simp
                    · rw [Bool.not_eq_true] at hstr
                      rw [hstr]
                      rfl
              · rw [if_pos hs]
                constructor
                · intro h
                  exact absurd h (by decide)
                · rintro ⟨-, heq, -, -⟩
                  injection heq with heq
                  injection heq with heq
                  exact absurd heq hs
          | null => simp [hjr]
          | bool b => simp [hjr]
          | num n => simp [hjr]
          | arr l => simp [hjr]
          | obj l => simp [hjr]

/-- Every envelope built by `convertServerErrorToJsonRpc` has the
three-member shape `jsonrpc / id / error`. -/
theorem convert_shape (d : String) (q : Option Json) :
    ∃ rid err, convertServerErrorToJsonRpc d q =
      Json.obj [("jsonrpc", Json.str "2.0"), ("id", rid), ("error", err)] := by
  unfold convertServerErrorToJsonRpc
  cases q with
  | none => exact ⟨_, _, rfl⟩
  | some p =>
      dsimp only
      by_cases h1 : (jsTruthy p && isObjectType p) = true
      · rw [if_pos h1]
        by_cases h2 : (jsTruthyO (getField p "message") ||
            jsTruthyO (getField p "exception")) = true
        · rw [if_pos h2]
          exact ⟨_, _, rfl⟩
        · rw [if_neg h2]
          by_cases h3 : isArrayType p = true
          · rw [if_pos h3]
            exact ⟨_, _, rfl⟩
          · rw [if_neg h3]
            exact ⟨_, _, rfl⟩
      · rw [if_neg h1]
        exact ⟨_, _, rfl⟩

theorem convert_isValid (d : String) (q : Option Json) :
    isValidJsonRpcResponse (convertServerErrorToJsonRpc d q) = true := by
  obtain ⟨rid, err, heq⟩ := convert_shape d q
  rw [heq]
  rfl

theorem convert_fields (d : String) (q : Option Json) :
    getField (convertServerErrorToJsonRpc d q) "jsonrpc" = some (Json.str "2.0") ∧
    (getField (convertServerErrorToJsonRpc d q) "error").isSome = true ∧
    getField (convertServerErrorToJsonRpc d q) "result" = none := by
  obtain ⟨rid, err, heq⟩ := convert_shape d q
  rw [heq]
  exact ⟨rfl, rfl, rfl⟩

/-- C2 counterexample: a payload carrying BOTH `result` and `error`
(violating the claim's "exactly one") is nonetheless passed through
unchanged, because the validator only requires at least one of them. -/
theorem responseValidation_counterexample :
    handleJSONResponseEnd "body"
        (some (Json.obj [("jsonrpc", Json.str "2.0"),
          ("result", Json.num 1), ("error", Json.num 2)])) =
      Json.obj [("jsonrpc", Json.str "2.0"),
        ("result", Json.num 1), ("error", Json.num 2)] ∧
    (getField (Json.obj [("jsonrpc", Json.str "2.0"),
        ("result", Json.num 1), ("error", Json.num 2)]) "result").isSome = true ∧
    (getField (Json.obj [("jsonrpc", Json.str "2.0"),
        ("result", Json.num 1), ("error", Json.num 2)]) "error").isSome = true := by
  exact ⟨rfl, rfl, rfl⟩

/-- C2 (amended): a parsed response body is passed through to the
client unchanged exactly when it is an object whose `jsonrpc` member is
the literal `"2.0"`, AT LEAST one of `result`/`error` is defined, and
it does not carry a string-valued exception-shaped field (`message`,
`exception`, `file`, `line`, `trace`) while both `result` and `error`
are falsy or absent; in every other case it is replaced by a
normalizer-produced envelope (which is never equal to the original). -/
theorem responseValidation_spec (data : String) (p : Json) :
    handleJSONResponseEnd data (some p) = p ↔ specValidEnvelope p := by
  constructor
  · intro h
    by_cases hv : isValidJsonRpcResponse p = true
    · exact (isValid_iff p).mp hv
    · exfalso
      unfold handleJSONResponseEnd at h
      dsimp only at h
      rw [if_neg hv] at h
      exact hv (h ▸ convert_isValid data (some p))
  · intro h
    unfold handleJSONResponseEnd
    dsimp only
    rw [if_pos ((isValid_iff p).mpr h)]

/-- Witness for C2: a well-formed `result` envelope is passed through,
and conversely the pass-through equation certifies spec-validity. -/
theorem responseValidation_spec_witness :
    specValidEnvelope (Json.obj [("jsonrpc", Json.str "2.0"), ("id", Json.num 3),
      ("result", Json.str "ok")]) ∧
    handleJSONResponseEnd "w"
        (some (Json.obj [("jsonrpc", Json.str "2.0"), ("id", Json.num 3),
          ("result", Json.str "ok")])) =
      Json.obj [("jsonrpc", Json.str "2.0"), ("id", Json.num 3),
        ("result", Json.str "ok")] :=
  ⟨(responseValidation_spec "w" _).mp rfl, rfl⟩

/-- C6 counterexample: on the pass-through path the normalizer can
return an envelope with BOTH `result` and `error` set, so "exactly one
of result/error" fails for arbitrary JSON bodies. -/
theorem errorNormalizer_exactlyOne_counterexample :
    handleJSONResponseEnd "ctrex"
        (some (Json.obj [("jsonrpc", Json.str "2.0"),
          ("result", Json.bool true), ("error", Json.bool false)])) =
      Json.obj [("jsonrpc", Json.str "2.0"),
        ("result", Json.bool true), ("error", Json.bool false)] ∧
    (getField (handleJSONResponseEnd "ctrex"
        (some (Json.obj [("jsonrpc", Json.str "2.0"),
          ("result", Json.bool true), ("error", Json.bool false)]))) "result").isSome
      = true ∧
    (getField (handleJSONResponseEnd "ctrex"
        (some (Json.obj [("jsonrpc", Json.str "2.0"),
          ("result", Json.bool true), ("error", Json.bool false)]))) "error").isSome
      = true := by
  exact ⟨rfl, rfl, rfl⟩

/-- C6 (amended): the error normalizer is total — for any body and any
parse result it returns an envelope whose `jsonrpc` member is `"2.0"`
with AT LEAST one of `result`/`error` set; on every conversion path
(parse failure or invalid envelope) exactly the `error` member is set
and `result` is absent. -/
theorem errorNormalizer_total_spec (data : String) (parsed : Option Json) :
    getField (handleJSONResponseEnd data parsed) "jsonrpc" = some (Json.str "2.0") ∧
    ((getField (handleJSONResponseEnd data parsed) "result").isSome ∨
      (getField (handleJSONResponseEnd data parsed) "error").isSome) ∧
    (getField (convertServerErrorToJsonRpc data parsed) "error").isSome = true ∧
    getField (convertServerErrorToJsonRpc data parsed) "result" = none := by
  have hc := convert_fields data parsed
  refine ⟨?_, ?_, hc.2.1, hc.2.2⟩
  · cases parsed with
    | none => exact hc.1
    | some p =>
        unfold handleJSONResponseEnd
        dsimp only
        by_cases hv : isValidJsonRpcResponse p = true
        · rw [if_pos hv]
          exact ((isValid_iff p).mp hv).2.1
        · rw [if_neg hv]
          exact (convert_fields data (some p)).1
  · cases parsed with
    | none =>
        right
        simpa using hc.2.1
    | some p =>
        unfold handleJSONResponseEnd
        dsimp only
        by_cases hv : isValidJsonRpcResponse p = true
        · rw [if_pos hv]
          exact ((isValid_iff p).mp hv).2.2.1
        · rw [if_neg hv]
          right
          simpa using (convert_fields data (some p)).2.1

/-- The code's notification test:
`parsed.method && parsed.method.startsWith('notifications/')`. -/
def isNotificationMethod (p : Json) : Bool :=
  match getField p "method" with
  | some (Json.str s) => strStartsWith s "notifications/"
  | _ => false

/-- Extraction `parsed.id !== undefined ? parsed.id : null`. -/
def requestIdOf (p : Json) : Json := (getField p "id").getD Json.null

theorem getField_internalErrorEnvelope_id (rid : Json) (msg : String) :
    getField (internalErrorEnvelope rid msg) "id" = some rid := rfl

theorem getField_applyRequestId (r rid : Json) (h : rid ≠ Json.null) :
    getField (applyRequestId r rid) "id" = some rid := by
  cases rid with
  | null => exact absurd rfl h
  | bool b => exact lookupAssoc_setAssoc_self _ _ _
  | num n => exact lookupAssoc_setAssoc_self _ _ _
  | str s => exact lookupAssoc_setAssoc_self _ _ _
  | arr l => exact lookupAssoc_setAssoc_self _ _ _
  | obj l => exact lookupAssoc_setAssoc_self _ _ _

theorem getField_cacheHitResponse_id (v rid : Json) (h : rid ≠ Json.null) :
    getField (cacheHitResponse v rid) "id" = some rid := by
  cases rid with
  | null => exact absurd rfl h
  | bool b => exact lookupAssoc_setAssoc_self _ _ _
  | num n => exact lookupAssoc_setAssoc_self _ _ _
  | str s => exact lookupAssoc_setAssoc_self _ _ _
  | arr l => exact lookupAssoc_setAssoc_self _ _ _
  | obj l => exact lookupAssoc_setAssoc_self _ _ _

/-- Every branch of the forward/cache pipeline emits exactly one
envelope, carrying the original request id whenever it is non-null. -/
theorem dispatchCore_output (disableCache : Bool) (st : CacheState) (now : Nat)
    (p requestId : Json) (sendResult : Except String Json) :
    ∃ e, (dispatchCore disableCache st now p requestId sendResult).2 = [e] ∧
      (requestId ≠ Json.null → getField e "id" = some requestId) := by
  unfold dispatchCore
  by_cases hinit : isInitializeMethod p = true
  · rw [if_pos hinit]
    cases sendResult with
    | ok r => exact ⟨_, rfl, fun h => getField_applyRequestId r _ h⟩
    | error e => exact ⟨_, rfl, fun _ => rfl⟩
  · rw [if_neg hinit]
    by_cases hc : shouldCache disableCache p = true
    · rw [if_pos hc]
      dsimp only
      by_cases hhit :
          jsTruthyO (getCachedResponse st now (getCacheKey p)).1 = true
      · rw [if_pos hhit]
        exact ⟨_, rfl, fun h => getField_cacheHitResponse_id _ _ h⟩
      · rw [if_neg hhit]
        cases sendResult with
        | ok r => exact ⟨_, rfl, fun h => getField_applyRequestId r _ h⟩
        | error e => exact ⟨_, rfl, fun _ => rfl⟩
    · rw [if_neg hc]
      cases sendResult with
      | ok r => exact ⟨_, rfl, fun h => getField_applyRequestId r _ h⟩
      | error e => exact ⟨_, rfl, fun _ => rfl⟩

/-- C4 counterexample: the input
`{"id": 42, "method": "notifications/progress"}` has a non-null id
(so by the claim's definition it is not a notification and must get a
response), yet the loop classifies by method prefix and writes
nothing. -/
theorem idFidelity_counterexample :
    (handleIncomingMessage false ⟨[], []⟩ 0
        (Except.ok (Json.obj [("id", Json.num 42),
          ("method", Json.str "notifications/progress")]))
        (Except.ok (Json.obj [("jsonrpc", Json.str "2.0"), ("result", Json.num 1)]))).2
      = [] ∧
    requestIdOf (Json.obj [("id", Json.num 42),
      ("method", Json.str "notifications/progress")]) = Json.num 42 := by
  exact ⟨rfl, rfl⟩

/-- C4 (amended): the loop classifies notifications by method prefix,
not by id.  For every parsed message whose `method` is a string
starting with `notifications/`, nothing is written (regardless of id);
every other parsed message produces exactly one output envelope, whose
`id` equals the request's id whenever that id is present and
non-null. -/
theorem idFidelity_spec (disableCache : Bool) (st : CacheState) (now : Nat)
    (p : Json) (sendResult : Except String Json) :
    (isNotificationMethod p = true →
      handleIncomingMessage disableCache st now (Except.ok p) sendResult = (st, [])) ∧
    (isNotificationMethod p = false →
      ∃ e, (handleIncomingMessage disableCache st now (Except.ok p) sendResult).2 = [e] ∧
        (requestIdOf p ≠ Json.null → getField e "id" = some (requestIdOf p))) := by
  constructor
  · intro hnotif
    cases p with
    | obj fields =>
        unfold isNotificationMethod at hnotif
        cases hm : getField (Json.obj fields) "method" with
        | none => rw [hm] at hnotif; cases hnotif
        | some m =>
            rw [hm] at hnotif
            cases m with
            | str s =>
                dsimp only at hnotif
                have hne : s ≠ "" := by
                  intro he
                  rw [he] at hnotif
                  exact absurd hnotif (by decide)
                have htruthy : jsTruthy (Json.str s) = true := by
                  simp [jsTruthy, hne]
                unfold handleIncomingMessage
                dsimp only
                rw [hm]
                dsimp only
                rw [if_pos htruthy, if_pos hnotif]
            | null => cases hnotif
            | bool b => cases hnotif
            | num n => cases hnotif
            | arr l => cases hnotif
            | obj l => cases hnotif
    | null => cases hnotif
    | bool b => cases hnotif
    | num n => cases hnotif
    | str s => cases hnotif
    | arr l => cases hnotif
  · intro hnotif
    cases p with
    | null => exact ⟨_, rfl, fun h => rfl⟩
    | bool b => exact dispatchCore_output _ _ _ _ _ _
    | num n => exact dispatchCore_output _ _ _ _ _ _
    | str s => exact dispatchCore_output _ _ _ _ _ _
    | arr l => exact dispatchCore_output _ _ _ _ _ _
    | obj fields =>
        unfold handleIncomingMessage
        unfold isNotificationMethod at hnotif
        dsimp only
        cases hm : getField (Json.obj fields) "method" with
        | none => exact dispatchCore_output _ _ _ _ _ _
        | some m =>
            rw [hm] at hnotif
            dsimp only
            cases m with
            | str s =>
                dsimp only at hnotif ⊢
                by_cases htruthy : jsTruthy (Json.str s) = true
                · rw [if_pos htruthy]
                  rw [if_neg (show ¬(strStartsWith s "notifications/" = true) from
                    fun h => by rw [h] at hnotif; cases hnotif)]
                  exact dispatchCore_output _ _ _ _ _ _
                · rw [if_neg htruthy]
                  exact dispatchCore_output _ _ _ _ _ _
            | null =>
                dsimp only
                rw [if_neg (show ¬(jsTruthy Json.null = true) by decide)]
                exact dispatchCore_output _ _ _ _ _ _
            | bool b =>
                dsimp only
                cases b with
                | true =>
                    rw [if_pos (show jsTruthy (Json.bool true) = true by decide)]
                    exact ⟨_, rfl, fun h => rfl⟩
                | false =>
                    rw [if_neg (show ¬(jsTruthy (Json.bool false) = true) by decide)]
                    exact dispatchCore_output _ _ _ _ _ _
            | num n =>
                dsimp only
                by_cases htruthy : jsTruthy (Json.num n) = true
                · rw [if_pos htruthy]
                  exact ⟨_, rfl, fun h => rfl⟩
                · rw [if_neg htruthy]
                  exact dispatchCore_output _ _ _ _ _ _
            | arr l =>
                dsimp only
                rw [if_pos (show jsTruthy (Json.arr l) = true from rfl)]
                exact ⟨_, rfl, fun h => rfl⟩
            | obj l =>
                dsimp only
                rw [if_pos (show jsTruthy (Json.obj l) = true from rfl)]
                exact ⟨_, rfl, fun h => rfl⟩

/-- Witness for C4: an ordinary `tools/call` request with `id = 42`
produces exactly one envelope carrying `id = 42`; a
`notifications/cancelled` message produces no output. -/
theorem idFidelity_spec_witness :
    (handleIncomingMessage false ⟨[], []⟩ 0
        (Except.ok (Json.obj [("id", Json.num 42), ("method", Json.str "tools/call")]))
        (Except.ok (Json.obj [("jsonrpc", Json.str "2.0"), ("result", Json.num 7),
          ("id", Json.num 99)]))).2.length = 1 ∧
    handleIncomingMessage false ⟨[], []⟩ 0
        (Except.ok (Json.obj [("method", Json.str "notifications/cancelled")]))
        (Except.ok Json.null) = (⟨[], []⟩, []) := by
  constructor
  · obtain ⟨e, he, hid⟩ :=
      (idFidelity_spec false ⟨[], []⟩ 0
        (Json.obj [("id", Json.num 42), ("method", Json.str "tools/call")])
        (Except.ok (Json.obj [("jsonrpc", Json.str "2.0"), ("result", Json.num 7),
          ("id", Json.num 99)]))).2 (by rfl)
    rw [he]
    rfl
  · exact (idFidelity_spec false ⟨[], []⟩ 0
      (Json.obj [("method", Json.str "notifications/cancelled")])
      (Except.ok Json.null)).1 (by rfl)

/-- A fresh cache hit does not mutate the cache. -/
theorem getCachedResponse_hit_state (st : CacheState) (now : Nat) (key : String)
    (v : Json) (h : (getCachedResponse st now key).1 = some v) :
    (getCachedResponse st now key).2 = st := by
  unfold getCachedResponse at h ⊢
  cases hl : lookupAssoc st.cacheTimestamps key with
  | none =>
      rw [hl] at h
      cases h
  | some t =>
      rw [hl] at h
      dsimp only at h ⊢
      by_cases h0 : t = 0
      · rw [if_pos h0] at h; cases h
      · rw [if_neg h0] at h ⊢
        by_cases hexp : CACHE_TTL < now - t
        · rw [if_pos hexp] at h; cases h
        · rw [if_neg hexp]

/-- C9: for a cacheable request (`method` in the allow-list, caching
enabled): on a cache miss with a successful dispatch, the raw server
response `r` is stored in the cache under the request's key BEFORE the
caller's id is substituted (the stored entry is exactly `r`, the output
envelope is `r` with the id substituted into a copy); on a fresh,
truthy cache hit the id substitution happens on a spread copy and the
whole cache state is left unchanged. -/
theorem cacheStoreOrder_spec (st : CacheState) (now : Nat) (p : Json) (m : String)
    (sendResult : Except String Json)
    (hm : getField p "method" = some (Json.str m))
    (hmem : m ∈ ["tools/list", "resources/list", "prompts/list"]) :
    (∀ r, sendResult = Except.ok r →
      jsTruthyO (getCachedResponse st now (getCacheKey p)).1 = false →
      handleIncomingMessage false st now (Except.ok p) sendResult =
        (setCachedResponse (getCachedResponse st now (getCacheKey p)).2 now
          (getCacheKey p) r,
         [applyRequestId r (requestIdOf p)]) ∧
      lookupAssoc
        (setCachedResponse (getCachedResponse st now (getCacheKey p)).2 now
          (getCacheKey p) r).toolCache (getCacheKey p) = some r) ∧
    (∀ v, (getCachedResponse st now (getCacheKey p)).1 = some v →
      jsTruthy v = true →
      handleIncomingMessage false st now (Except.ok p) sendResult =
        (st, [cacheHitResponse v (requestIdOf p)])) := by
  obtain ⟨fields, rfl⟩ : ∃ fields, p = Json.obj fields := by
    cases p with
    | obj fields => exact ⟨fields, rfl⟩
    | null => cases hm
    | bool b => cases hm
    | num n => cases hm
    | str s => cases hm
    | arr l => cases hm
  have hmem' : m = "tools/list" ∨ m = "resources/list" ∨ m = "prompts/list" := by
    simpa using hmem
  have hne : m ≠ "" := by
    rcases hmem' with rfl | rfl | rfl
    all_goals decide
  have htruthy : jsTruthy (Json.str m) = true := by simp [jsTruthy, hne]
  have hns : ¬(strStartsWith m "notifications/" = true) := by
    rcases hmem' with rfl | rfl | rfl
    all_goals decide
  have hinit : isInitializeMethod (Json.obj fields) = false := by
    unfold isInitializeMethod
    rw [hm]
    rcases hmem' with rfl | rfl | rfl
    all_goals decide
  have hsc : shouldCache false (Json.obj fields) = true := by
    unfold shouldCache
    rw [if_neg (by decide)]
    rw [hm]
    exact decide_eq_true hmem
  have hred : handleIncomingMessage false st now (Except.ok (Json.obj fields)) sendResult =
      dispatchCore false st now (Json.obj fields) (requestIdOf (Json.obj fields))
        sendResult := by
    unfold handleIncomingMessage
    dsimp only
    rw [hm]
    dsimp only
    rw [if_pos htruthy, if_neg hns]
    rfl
  constructor
  · intro r hok hmiss
    subst hok
    rw [hred]
    unfold dispatchCore
    rw [if_neg (show ¬(isInitializeMethod (Json.obj fields) = true) from
      fun h => by rw [h] at hinit; cases hinit)]
    rw [if_pos hsc]
    dsimp only
    rw [if_neg (show ¬(jsTruthyO (getCachedResponse st now
        (getCacheKey (Json.obj fields))).1 = true) from
      fun h => by rw [h] at hmiss; cases hmiss)]
    exact ⟨rfl, lookupAssoc_setAssoc_self _ _ _⟩
  · intro v hv hvt
    rw [hred]
    unfold dispatchCore
    rw [if_neg (show ¬(isInitializeMethod (Json.obj fields) = true) from
      fun h => by rw [h] at hinit; cases hinit)]
    rw [if_pos hsc]
    dsimp only
    rw [if_pos (show jsTruthyO (getCachedResponse st now
        (getCacheKey (Json.obj fields))).1 = true from by rw [hv]; exact hvt)]
    rw [hv]
    rw [getCachedResponse_hit_state st now _ v hv]
    rfl

/-- Witness for C9: a `tools/list` request with `id = 1` against an
empty cache and a successful dispatch stores the raw response (with the
server's `id: 99`) and outputs the id-substituted copy. -/
theorem cacheStoreOrder_spec_witness :
    handleIncomingMessage false ⟨[], []⟩ 5
        (Except.ok (Json.obj [("id", Json.num 1), ("method", Json.str "tools/list")]))
        (Except.ok (Json.obj [("jsonrpc", Json.str "2.0"), ("id", Json.num 99),
          ("result", Json.arr [])])) =
      (setCachedResponse
        (getCachedResponse ⟨[], []⟩ 5
          (getCacheKey (Json.obj [("id", Json.num 1),
            ("method", Json.str "tools/list")]))).2 5
        (getCacheKey (Json.obj [("id", Json.num 1), ("method", Json.str "tools/list")]))
        (Json.obj [("jsonrpc", Json.str "2.0"), ("id", Json.num 99),
          ("result", Json.arr [])]),
       [applyRequestId
          (Json.obj [("jsonrpc", Json.str "2.0"), ("id", Json.num 99),
            ("result", Json.arr [])])
          (requestIdOf (Json.obj [("id", Json.num 1),
            ("method", Json.str "tools/list")]))]) ∧
    lookupAssoc
      (setCachedResponse
        (getCachedResponse ⟨[], []⟩ 5
          (getCacheKey (Json.obj [("id", Json.num 1),
            ("method", Json.str "tools/list")]))).2 5
        (getCacheKey (Json.obj [("id", Json.num 1), ("method", Json.str "tools/list")]))
        (Json.obj [("jsonrpc", Json.str "2.0"), ("id", Json.num 99),
          ("result", Json.arr [])])).toolCache
      (getCacheKey (Json.obj [("id", Json.num 1), ("method", Json.str "tools/list")]))
      = some (Json.obj [("jsonrpc", Json.str "2.0"), ("id", Json.num 99),
          ("result", Json.arr [])]) := by
  exact (cacheStoreOrder_spec ⟨[], []⟩ 5
      (Json.obj [("id", Json.num 1), ("method", Json.str "tools/list")])
      "tools/list" _ rfl (by decide)).1 _ rfl (by rfl)

theorem settleResolve_none (o : SSEOutcome) : settleResolve o none = o := by
  cases o <;> rfl

theorem settleResolve_resolved (v : Json) (r : Option Json) :
    settleResolve (SSEOutcome.resolved v) r = SSEOutcome.resolved v := rfl

theorem sseSep_ne_nil : sseSep ≠ [] := by decide

theorem dropLast_append_lastD (l : List (List Char)) (h : l ≠ []) :
    l.dropLast ++ [lastD l] = l := by
  induction l with
  | nil => exact absurd rfl h
  | cons a rest ih =>
      cases rest with
      | nil => rfl
      | cons b rest' =>
          have hne : b :: rest' ≠ [] := by simp
          rw [dropLast_cons_of_ne_nil hne, lastD_cons_of_ne_nil hne,
            List.cons_append, ih hne]

/-- Incremental split-processing of the chunk stream settles exactly the
complete blocks of the concatenated stream, in order, and leaves the
last segment as the residual buffer. -/
theorem sseStep_foldl (jparse : List Char → Option Json) :
    ∀ (chunks : List (List Char)) (o : SSEOutcome) (buf : List Char),
      findIdx1 sseSep buf = none →
      chunks.foldl (sseStep jparse) (o, buf) =
        ((splitSep sseSep (buf ++ chunks.flatten)).dropLast.foldl
          (fun a ev => settleResolve a (midEvent jparse ev)) o,
         lastD (splitSep sseSep (buf ++ chunks.flatten))) := by
  intro chunks
  induction chunks with
  | nil =>
      intro o buf hbuf
      rw [List.foldl_nil, List.flatten_nil, List.append_nil,
        splitSep_of_none sseSep_ne_nil hbuf]
      rfl
  | cons c rest ih =>
      intro o buf hbuf
      rw [List.foldl_cons]
      have hb1 : findIdx1 sseSep (lastD (splitSep sseSep (buf ++ c))) = none :=
        findIdx1_lastD_splitSep sseSep sseSep_ne_nil (buf ++ c).length _ le_rfl
      have hstep : sseStep jparse (o, buf) c =
          ((splitSep sseSep (buf ++ c)).dropLast.foldl
            (fun a ev => settleResolve a (midEvent jparse ev)) o,
           lastD (splitSep sseSep (buf ++ c))) := rfl
      rw [hstep, ih _ _ hb1]
      have hsplit := splitSep_append sseSep sseSep_ne_nil (buf ++ c).length
        (buf ++ c) rest.flatten le_rfl
      have hne := splitSep_ne_nil sseSep
        (lastD (splitSep sseSep (buf ++ c)) ++ rest.flatten)
      rw [List.flatten_cons, show buf ++ (c ++ rest.flatten) = (buf ++ c) ++ rest.flatten
          by rw [List.append_assoc],
        hsplit, dropLast_append_of_ne_nil hne, lastD_append_of_ne_nil hne,
        List.foldl_append]

theorem foldl_settle_of_findSome?_none (jparse : List Char → Option Json)
    (l : List (List Char)) (o : SSEOutcome)
    (h : l.findSome? (midEvent jparse) = none) :
    l.foldl (fun a ev => settleResolve a (midEvent jparse ev)) o = o := by
  induction l generalizing o with
  | nil => rfl
  | cons a l' ih =>
      rw [List.findSome?_cons] at h
      cases hm : midEvent jparse a with
      | some w => rw [hm] at h; cases h
      | none =>
          rw [hm] at h
          rw [List.foldl_cons, hm, settleResolve_none]
          exact ih o h

theorem foldl_settle_resolved (jparse : List Char → Option Json)
    (l : List (List Char)) (v : Json) :
    l.foldl (fun a ev => settleResolve a (midEvent jparse ev))
      (SSEOutcome.resolved v) = SSEOutcome.resolved v := by
  induction l with
  | nil => rfl
  | cons a l' ih => rw [List.foldl_cons, settleResolve_resolved]; exact ih

theorem foldl_settle_of_findSome?_some (jparse : List Char → Option Json)
    (l : List (List Char)) (v : Json)
    (h : l.findSome? (midEvent jparse) = some v) :
    l.foldl (fun a ev => settleResolve a (midEvent jparse ev))
      SSEOutcome.pending = SSEOutcome.resolved v := by
  induction l with
  | nil => cases h
  | cons a l' ih =>
      rw [List.findSome?_cons] at h
      cases hm : midEvent jparse a with
      | some w =>
          rw [hm] at h
          injection h with h
          subst h
          rw [List.foldl_cons, hm]
          exact foldl_settle_resolved jparse l' _
      | none =>
          rw [hm] at h
          rw [List.foldl_cons, hm, settleResolve_none]
          exact ih h

theorem sseEnd_resolved (jparse : List Char → Option Json) (v : Json)
    (buf : List Char) :
    sseEnd jparse (SSEOutcome.resolved v, buf) = SSEOutcome.resolved v := by
  unfold sseEnd
  by_cases h1 : hasNonWs buf = true
  · rw [if_pos h1]
    dsimp only
    by_cases h2 : (parseSSEEvent buf).2.isEmpty = true
    · rw [if_pos h2]
    · rw [if_neg h2]
      cases jparse (parseSSEEvent buf).2 <;> rfl
  · rw [if_neg h1]

theorem findSome?_append_of_some {α β : Type} (f : α → Option β) (A B : List α)
    (v : β) (h : A.findSome? f = some v) : (A ++ B).findSome? f = some v := by
  induction A with
  | nil => cases h
  | cons a A' ih =>
      rw [List.findSome?_cons] at h
      rw [List.cons_append, List.findSome?_cons]
      cases hm : f a with
      | some w => rw [hm] at h; exact h
      | none =>
          rw [hm] at h
          exact ih h

theorem findSome?_last {α β : Type} (f : α → Option β) (A : List α) (b : α)
    (v : β) (h : (A ++ [b]).findSome? f = some v)
    (hA : A.findSome? f = none) : f b = some v := by
  induction A with
  | nil =>
      rw [List.nil_append, List.findSome?_cons] at h
      cases hm : f b with
      | some w =>
          rw [hm] at h
          simp at h
          simp [hm, h]
      | none =>
          rw [hm] at h
          simp at h
  | cons a A' ih =>
      rw [List.findSome?_cons] at hA
      rw [List.cons_append, List.findSome?_cons] at h
      cases hm : f a with
      | some w => rw [hm] at hA; cases hA
      | none =>
          rw [hm] at h hA
          exact ih h hA

/-- C8: over any chunking of an SSE body, if some block of the full
stream (complete blocks and the trailing partial block alike) is
non-blank, has a non-empty concatenated `data` payload, and that
payload parses as JSON, then the dispatcher's promise resolves with the
parse of the FIRST such block; earlier blocks whose payload is
malformed JSON are skipped and are never fatal to the call. -/
theorem sseFirstJson_spec (jparse : List Char → Option Json)
    (chunks : List (List Char)) (v : Json)
    (h : (splitSep sseSep chunks.flatten).findSome? (midEvent jparse) = some v) :
    handleSSEResponse jparse chunks = SSEOutcome.resolved v := by
  unfold handleSSEResponse
  rw [sseStep_foldl jparse chunks SSEOutcome.pending [] (by decide),
    List.nil_append]
  have hne := splitSep_ne_nil sseSep chunks.flatten
  cases hA : (splitSep sseSep chunks.flatten).dropLast.findSome? (midEvent jparse) with
  | some w =>
      have hw : (splitSep sseSep chunks.flatten).findSome? (midEvent jparse) = some w := by
        rw [← dropLast_append_lastD _ hne]
        exact findSome?_append_of_some _ _ _ _ hA
      rw [hw] at h
      cases h
      rw [foldl_settle_of_findSome?_some jparse _ _ hA]
      exact sseEnd_resolved jparse _ _
  | none =>
      rw [foldl_settle_of_findSome?_none jparse _ _ hA]
      have hb : midEvent jparse (lastD (splitSep sseSep chunks.flatten)) = some v := by
        refine findSome?_last _ _ _ _ ?_ hA
        rw [dropLast_append_lastD _ hne]
        exact h
      unfold midEvent at hb
      by_cases h1 : hasNonWs (lastD (splitSep sseSep chunks.flatten)) = true
      · rw [if_pos h1] at hb
        dsimp only at hb
        by_cases h2 : (parseSSEEvent (lastD (splitSep sseSep chunks.flatten))).2.isEmpty
            = true
        · rw [if_pos h2] at hb
          cases hb
        · rw [if_neg h2] at hb
          unfold sseEnd
          rw [if_pos h1]
          dsimp only
          rw [if_neg h2, hb]
          rfl
      · rw [if_neg h1] at hb
        cases hb

set_option maxRecDepth 100000 in
/-- Witness for C8: the stream `data: x\n\ndata: 1\n\n` delivered in two
chunks (splitting mid-line) resolves with the parse of the second block,
the first block's payload `x` being malformed JSON. -/
theorem sseFirstJson_spec_witness :
    handleSSEResponse
        (fun s => if s = ['1'] then some (Json.num 1) else none)
        ["data: x\n\nda".toList, "ta: 1\n\n".toList] =
      SSEOutcome.resolved (Json.num 1) := by
  apply sseFirstJson_spec
  have hflat : ["data: x\n\nda".toList, "ta: 1\n\n".toList].flatten =
      "data: x\n\ndata: 1\n\n".toList := by decide
  rw [hflat]
  rw [splitSep_of_some sseSep_ne_nil
    (show findIdx1 sseSep ("data: x\n\ndata: 1\n\n".toList) = some 7 by decide)]
  have hd1 : ("data: x\n\ndata: 1\n\n".toList).drop (7 + sseSep.length) =
      "data: 1\n\n".toList := by decide
  have ht1 : ("data: x\n\ndata: 1\n\n".toList).take 7 = "data: x".toList := by decide
  rw [hd1, ht1]
  rw [splitSep_of_some sseSep_ne_nil
    (show findIdx1 sseSep ("data: 1\n\n".toList) = some 7 by decide)]
  have hd2 : ("data: 1\n\n".toList).drop (7 + sseSep.length) = [] := by decide
  have ht2 : ("data: 1\n\n".toList).take 7 = "data: 1".toList := by decide
  rw [hd2, ht2]
  rw [splitSep_of_none sseSep_ne_nil
    (show findIdx1 sseSep ([] : List Char) = none by decide)]
  have hm1 : midEvent (fun s => if s = ['1'] then some (Json.num 1) else none)
      ("data: x".toList) = none := by
    unfold midEvent parseSSEEvent
    rw [splitSep_of_none (by decide)
      (show findIdx1 ['\n'] ("data: x".toList) = none by decide)]
    rfl
  have hm2 : midEvent (fun s => if s = ['1'] then some (Json.num 1) else none)
      ("data: 1".toList) = some (Json.num 1) := by
    unfold midEvent parseSSEEvent
    rw [splitSep_of_none (by decide)
      (show findIdx1 ['\n'] ("data: 1".toList) = none by decide)]
    rfl
  rw [List.findSome?_cons, hm1]
  rw [List.findSome?_cons, hm2]

end LeantimeProxy
